import Mathlib

/-!
# DS18B20 one-wire driver (`ds18b20.c`): embedding and verified properties

The driver talks to the sensor over bit 0 of port C of an ATmega328P.  The
machine state below holds the two output registers the routines write
(`DDRC`, `PORTC`), the time spent in `_delay_us`, and the input register
`PINC` as an oracle: `PINC k` is the value the `k`-th read of the register
returns.  `calls` is ghost state, the trace of the three time-slot routines
(`therm_Reset`, `therm_WriteBit`, `therm_ReadBit`) in the order they ran.

`byte` is `uint8_t` and `int` is the 16-bit two's-complement `int` of avr-gcc;
both are embedded in `Nat` / `Int` with explicit reductions.
-/

namespace DS18B20

/-! ## Machine integers -/

/-- Conversion to `byte` (`uint8_t`). -/
def byte (n : Nat) : Nat := n % 256

/-- Conversion to the 16-bit two's-complement `int` of the target. -/
def int16 (x : Int) : Int := (x + 32768) % 65536 - 32768

/-- Range of the target's `int`. -/
def fits16 (x : Int) : Prop := -32768 ≤ x ∧ x ≤ 32767

instance (x : Int) : Decidable (fits16 x) := by
  unfold fits16; exact inferInstance

/-! ## Machine state -/

/-- One call of a time-slot routine, with the bit it wrote or returned. -/
inductive Call where
  | Reset (ret : Nat)
  | WriteBit (bit : Nat)
  | ReadBit (ret : Nat)
  deriving DecidableEq, Repr

/-- Registers of port C, the delay clock, the input oracle and the call trace. -/
structure Avr where
  DDRC : Nat
  PORTC : Nat
  PINC : Nat → Nat
  reads : Nat
  us : Nat
  calls : List Call

/-! ## Global defines (lines 18-22, 228-246) -/

/-- Bit value `_BV(y)` of avr-libc. -/
def BV (y : Nat) : Nat := 1 <<< y

/-- Macro `ClearBit(x,y)`: `x &= ~_BV(y)` on an 8-bit register. -/
def ClearBit (x y : Nat) : Nat := x &&& (255 ^^^ BV y)

/-- Macro `SetBit(x,y)`: `x |= _BV(y)` on an 8-bit register. -/
def SetBit (x y : Nat) : Nat := byte (x ||| BV y)

/-- Macro `ReadBit(x,y)`: `x & _BV(y)`. -/
def ReadBit (x y : Nat) : Nat := x &&& BV y

def THERM_IO : Nat := 0
def THERM_CONVERTTEMP : Nat := 0x44
def THERM_READSCRATCH : Nat := 0xBE
def THERM_MATCHROM : Nat := 0x55
def THERM_SKIPROM : Nat := 0xCC

/-- Busy wait `_delay_us(n)`. -/
def delay_us (n : Nat) (s : Avr) : Avr := { s with us := s.us + n }

/-- Macro `THERM_INPUT()`: make the pin an input. -/
def THERM_INPUT (s : Avr) : Avr := { s with DDRC := ClearBit s.DDRC THERM_IO }

/-- Macro `THERM_OUTPUT()`: make the pin an output. -/
def THERM_OUTPUT (s : Avr) : Avr := { s with DDRC := SetBit s.DDRC THERM_IO }

/-- Macro `THERM_LOW()`: take the (output) pin low. -/
def THERM_LOW (s : Avr) : Avr := { s with PORTC := ClearBit s.PORTC THERM_IO }

/-- Macro `THERM_READ()`: `PINC & _BV(0)`, one read of the input register. -/
def THERM_READ (s : Avr) : Nat × Avr :=
  (ReadBit (s.PINC s.reads) THERM_IO, { s with reads := s.reads + 1 })

/-- Ghost step: append one call to the trace. -/
def record (c : Call) (s : Avr) : Avr := { s with calls := s.calls ++ [c] }

/-! ## One-wire routines (lines 253-332) -/

/-- Source `therm_Reset` (lines 253-264). -/
def therm_Reset (s : Avr) : Nat × Avr :=
  let s := THERM_OUTPUT s
  let s := THERM_LOW s
  let s := delay_us 480 s
  let s := THERM_INPUT s
  let s := delay_us 60 s
  let r := THERM_READ s
  let i := byte r.1
  let s := delay_us 420 r.2
  (i, record (Call.Reset i) s)

/-- Source `therm_WriteBit` (lines 266-274). -/
def therm_WriteBit (bit : Nat) (s : Avr) : Avr :=
  let s := THERM_OUTPUT s
  let s := THERM_LOW s
  let s := delay_us 1 s
  let s := if byte bit ≠ 0 then THERM_INPUT s else s
  let s := delay_us 60 s
  let s := THERM_INPUT s
  record (Call.WriteBit (byte bit)) s

/-- Source `therm_ReadBit` (lines 276-287). -/
def therm_ReadBit (s : Avr) : Nat × Avr :=
  let bit := 0
  let s := THERM_OUTPUT s
  let s := THERM_LOW s
  let s := delay_us 1 s
  let s := THERM_INPUT s
  let s := delay_us 14 s
  let r := THERM_READ s
  let bit := if r.1 ≠ 0 then 1 else bit
  let s := delay_us 45 r.2
  (bit, record (Call.ReadBit bit) s)

/-- Loop `while(i--)` of `therm_WriteByte` (lines 292-296) with `i` iterations left. -/
def therm_WriteByte_loop : Nat → Nat → Avr → Avr
  | 0, _, s => s
  | i + 1, data, s =>
    let s := therm_WriteBit (data &&& 1) s
    let data := byte (data >>> 1)
    therm_WriteByte_loop i data s

/-- Source `therm_WriteByte` (lines 289-297). -/
def therm_WriteByte (data : Nat) (s : Avr) : Avr :=
  therm_WriteByte_loop 8 (byte data) s

/-- Loop `while(i--)` of `therm_ReadByte` (lines 302-306) with `i` iterations left. -/
def therm_ReadByte_loop : Nat → Nat → Avr → Nat × Avr
  | 0, data, s => (data, s)
  | i + 1, data, s =>
    let data := byte (data >>> 1)
    let r := therm_ReadBit s
    let data := byte (data ||| (r.1 <<< 7))
    therm_ReadByte_loop i data r.2

/-- Source `therm_ReadByte` (lines 299-308). -/
def therm_ReadByte (s : Avr) : Nat × Avr :=
  therm_ReadByte_loop 8 0 s

/-- Loop `for (byte i=0;i<8;i++) therm_WriteByte(rom[i])` of `therm_MatchRom`,
with `n` iterations left starting at index `i`. -/
def therm_MatchRom_loop (rom : List Nat) : Nat → Nat → Avr → Avr
  | 0, _, s => s
  | n + 1, i, s => therm_MatchRom_loop rom n (i + 1) (therm_WriteByte (rom.getD i 0) s)

/-- Source `therm_MatchRom` (lines 310-315); `rom` is the byte array. -/
def therm_MatchRom (rom : List Nat) (s : Avr) : Avr :=
  let s := therm_WriteByte THERM_MATCHROM s
  therm_MatchRom_loop rom 8 0 s

/-- Loop `while (!therm_ReadBit());` (line 324): `none` when `fuel` iterations
did not see a 1. -/
def therm_ReadTempRaw_poll : Nat → Avr → Option Avr
  | 0, _ => none
  | fuel + 1, s =>
    let r := therm_ReadBit s
    if r.1 = 0 then therm_ReadTempRaw_poll fuel r.2 else some r.2

/-- Addressing step `if (id) therm_MatchRom(id); else therm_WriteByte(THERM_SKIPROM);`
(lines 321-322 and 327-328); `none` is the null pointer. -/
def therm_ReadTempRaw_address (id : Option (List Nat)) (s : Avr) : Avr :=
  match id with
  | some rom => therm_MatchRom rom s
  | none => therm_WriteByte THERM_SKIPROM s

/-- Source `therm_ReadTempRaw` (lines 317-332): returns `((t0, t1), state)`. -/
def therm_ReadTempRaw (fuel : Nat) (id : Option (List Nat)) (s : Avr) :
    Option ((Nat × Nat) × Avr) :=
  let s := (therm_Reset s).2
  let s := therm_ReadTempRaw_address id s
  let s := therm_WriteByte THERM_CONVERTTEMP s
  match therm_ReadTempRaw_poll fuel s with
  | none => none
  | some s =>
    let s := (therm_Reset s).2
    let s := therm_ReadTempRaw_address id s
    let s := therm_WriteByte THERM_READSCRATCH s
    let r0 := therm_ReadByte s
    let r1 := therm_ReadByte r0.2
    some ((r0.1, r1.1), r1.2)

/-! ## Temperature decoding (lines 334-355) -/

/-- Lines 339-342 of `therm_ReadTempC`: `(whole, decimal)` from the bytes `t0`, `t1`. -/
def therm_ReadTempC_decode (t0 t1 : Nat) : Int × Int :=
  let whole : Int := int16 (Int.land (byte t1 : Int) 0x07 * 2 ^ 4)
  let whole : Int := Int.lor whole ((byte t0 : Int) >>> 4)
  let decimal : Int := Int.land (byte t0 : Int) 0x0F
  let decimal : Int := int16 (decimal * 625)
  (whole, decimal)

/-- Source `therm_ReadTempC` (lines 334-343): returns `((whole, decimal), state)`. -/
def therm_ReadTempC (fuel : Nat) (id : Option (List Nat)) (s : Avr) :
    Option ((Int × Int) × Avr) :=
  match therm_ReadTempRaw fuel id s with
  | none => none
  | some r => some (therm_ReadTempC_decode r.1.1 r.1.2, r.2)

/-- Lines 350-354 of `therm_ReadTempF`: `(whole, decimal)` from the bytes `t0`, `t1`. -/
def therm_ReadTempF_decode (t0 t1 : Nat) : Int × Int :=
  let t16 : Int := int16 (int16 ((byte t1 : Int) * 2 ^ 8) + (byte t0 : Int))
  let t2 : Int := int16 (Int.tdiv t16 8)
  let f10 : Int := int16 (int16 (t16 + t2) + 320)
  (int16 (Int.tdiv f10 10), int16 (Int.tmod f10 10))

/-- Source `therm_ReadTempF` (lines 345-355): returns `((whole, decimal), state)`. -/
def therm_ReadTempF (fuel : Nat) (id : Option (List Nat)) (s : Avr) :
    Option ((Int × Int) × Avr) :=
  match therm_ReadTempRaw fuel id s with
  | none => none
  | some r => some (therm_ReadTempF_decode r.1.1 r.1.2, r.2)


/-! ## Vocabulary for the statements -/

/-- Level of pin 0 at the `k`-th coming read of `PINC`, as 0 or 1. -/
def lineBit (s : Avr) (k : Nat) : Nat := s.PINC (s.reads + k) % 2

/-- Byte whose bit `k` is the level of pin 0 at the `(j + k)`-th coming read. -/
def lineByte (s : Avr) (j : Nat) : Nat :=
  lineBit s j + 2 * lineBit s (j + 1) + 4 * lineBit s (j + 2) + 8 * lineBit s (j + 3)
    + 16 * lineBit s (j + 4) + 32 * lineBit s (j + 5) + 64 * lineBit s (j + 6)
    + 128 * lineBit s (j + 7)

/-- Bit `k` of `x`, as 0 or 1. -/
def bitOf (x k : Nat) : Nat := (x >>> k) % 2

/-- Trace of a byte write: eight write slots, bit 0 of `x` first. -/
def writeSlots (x : Nat) : List Call :=
  (List.range 8).map fun k => Call.WriteBit (bitOf x k)

/-- Trace of eight read slots starting at the `j`-th coming read. -/
def readSlots (s : Avr) (j : Nat) : List Call :=
  (List.range 8).map fun k => Call.ReadBit (lineBit s (j + k))

/-- Bytes of the addressing step: match-ROM and the eight bytes of the
address, or skip-ROM for the null pointer. -/
def addressBytes : Option (List Nat) → List Nat
  | some rom => THERM_MATCHROM :: (List.range 8).map fun i => rom.getD i 0
  | none => [THERM_SKIPROM]

/-- Trace of consecutive byte writes. -/
def writeBytes : List Nat → List Call
  | [] => []
  | x :: xs => writeSlots x ++ writeBytes xs

/-- Trace of the conversion poll: `n` slots that read 0, then one that reads 1. -/
def pollSlots (n : Nat) : List Call :=
  List.replicate n (Call.ReadBit 0) ++ [Call.ReadBit 1]

/-- Trace of a whole temperature read whose poll ends after `n` busy slots. -/
def rawTrace (id : Option (List Nat)) (s : Avr) (n : Nat) : List Call :=
  Call.Reset (lineBit s 0) :: writeBytes (addressBytes id ++ [THERM_CONVERTTEMP])
    ++ pollSlots n
    ++ Call.Reset (lineBit s (n + 2)) :: writeBytes (addressBytes id ++ [THERM_READSCRATCH])
    ++ readSlots s (n + 3) ++ readSlots s (n + 11)

/-- The first `n` poll slots of a `therm_ReadTempRaw` started in `s` read 0 and
the next one reads 1 (the reset takes the read before them). -/
def ConversionDone (s : Avr) (n : Nat) : Prop :=
  (∀ k < n, lineBit s (k + 1) = 0) ∧ lineBit s (n + 1) = 1

instance (s : Avr) (n : Nat) : Decidable (ConversionDone s n) := by
  unfold ConversionDone; exact inferInstance

/-- Register value of the claim wording: the 16 bits `t1:t0` read as a
two's-complement number. -/
def rawValue (t0 t1 : Nat) : Int :=
  if t1 < 128 then ((t1 * 256 + t0 : Nat) : Int) else ((t1 * 256 + t0 : Nat) : Int) - 65536

/-- Tenths of a degree Fahrenheit of the claim wording, `raw + raw/8 + 320` in
the 16-bit `int` with division truncating toward zero. -/
def tenthsF (raw : Int) : Int := int16 (raw + Int.tdiv raw 8 + 320)

/-- State `t` is `s` after `m` more reads of `PINC` and the calls `evs`. -/
def Advances (s t : Avr) (m : Nat) (evs : List Call) : Prop :=
  t.PINC = s.PINC ∧ t.reads = s.reads + m ∧ t.calls = s.calls ++ evs

/-! ## Test buses -/

/-- Input oracle that presents the bits of `bits` on pin 0, one per read, and
a released (high) line afterwards. -/
def pinOfBits (bits : List Nat) (k : Nat) : Nat := bits.getD k 1

/-- Initial state on a given input oracle. -/
def boot (pinc : Nat → Nat) : Avr :=
  { DDRC := 0, PORTC := 0, PINC := pinc, reads := 0, us := 0, calls := [] }

/-- Address of the first sensor, array `rom0` (line 250). -/
def rom0 : List Nat := [0x28, 0xE1, 0x21, 0xA3, 0x02, 0x00, 0x00, 0x5B]

/-- Bus with one sensor: presence pulse, two busy poll slots, then the
register bytes `0x91`, `0x01` least-significant bit first. -/
def busWarm : Avr :=
  boot (pinOfBits [0, 0, 0, 1, 0, 1, 0, 0, 0, 1, 0, 0, 1, 1, 0, 0, 0, 0, 0, 0, 0])

/-- Bus with one sensor at -25.0625 degrees Celsius: presence pulse, conversion
already complete, then the register bytes `0x6F`, `0xFE`. -/
def busCold : Avr :=
  boot (pinOfBits [0, 1, 0, 1, 1, 1, 1, 0, 1, 1, 0, 0, 1, 1, 1, 1, 1, 1, 1])

/-- Bus with one sensor at 25 degrees Celsius: presence pulse, conversion already
complete, then the register bytes `0x90`, `0x01`. -/
def busRoom : Avr :=
  boot (pinOfBits [0, 1, 0, 0, 0, 0, 0, 1, 0, 0, 1, 1, 0, 0, 0, 0, 0, 0, 0])

/-- Bus whose line is held low for ever: the conversion never completes. -/
def busStuck : Avr := boot (fun _ => 0)

/-- Bus with no device: the pulled-up line reads high at every sample. -/
def busEmpty : Avr := boot (fun _ => 1)


/-! ## Machine integers: basic facts -/

theorem int16_of_fits {x : Int} (h : fits16 x) : int16 x = x := by
  unfold fits16 at h; unfold int16; omega

theorem byte_of_lt {n : Nat} (h : n < 256) : byte n = n := Nat.mod_eq_of_lt h

theorem byte_lt (n : Nat) : byte n < 256 := Nat.mod_lt _ (by decide)

theorem lineBit_lt (s : Avr) (k : Nat) : lineBit s k < 2 := Nat.mod_lt _ (by decide)

theorem lineByte_lt (s : Avr) (j : Nat) : lineByte s j < 256 := by
  unfold lineByte
  have h0 := lineBit_lt s j
  have h1 := lineBit_lt s (j + 1)
  have h2 := lineBit_lt s (j + 2)
  have h3 := lineBit_lt s (j + 3)
  have h4 := lineBit_lt s (j + 4)
  have h5 := lineBit_lt s (j + 5)
  have h6 := lineBit_lt s (j + 6)
  have h7 := lineBit_lt s (j + 7)
  omega

/-! ## Frame facts of the slot routines -/

theorem Advances.refl (s : Avr) : Advances s s 0 [] := by
  simp [Advances]

theorem Advances.trans {s t u : Avr} {m k : Nat} {e f : List Call}
    (h₁ : Advances s t m e) (h₂ : Advances t u k f) : Advances s u (m + k) (e ++ f) := by
  obtain ⟨a₁, b₁, c₁⟩ := h₁
  obtain ⟨a₂, b₂, c₂⟩ := h₂
  refine ⟨a₂.trans a₁, ?_, ?_⟩
  · rw [b₂, b₁, Nat.add_assoc]
  · rw [c₂, c₁, List.append_assoc]

theorem Advances.lineBit {s t : Avr} {m : Nat} {e : List Call} (h : Advances s t m e)
    (k : Nat) : lineBit t k = lineBit s (m + k) := by
  obtain ⟨a, b, _⟩ := h
  simp only [DS18B20.lineBit, a, b, Nat.add_assoc]

theorem sample_eq (x : Nat) : ReadBit x THERM_IO = x % 2 := by
  simp [ReadBit, THERM_IO, BV, Nat.and_one_is_mod]

theorem therm_Reset_fst (s : Avr) : (therm_Reset s).1 = lineBit s 0 := by
  have h : s.PINC s.reads % 2 < 256 := by omega
  simp [therm_Reset, THERM_READ, THERM_OUTPUT, THERM_LOW, THERM_INPUT, delay_us, sample_eq,
    lineBit, byte_of_lt h]

theorem therm_Reset_adv (s : Avr) :
    Advances s (therm_Reset s).2 1 [Call.Reset (lineBit s 0)] := by
  have h : s.PINC s.reads % 2 < 256 := by omega
  simp [Advances, therm_Reset, THERM_READ, THERM_OUTPUT, THERM_LOW, THERM_INPUT, delay_us,
    record, sample_eq, lineBit, byte_of_lt h]

theorem therm_WriteBit_adv (bit : Nat) (s : Avr) :
    Advances s (therm_WriteBit bit s) 0 [Call.WriteBit (byte bit)] := by
  unfold therm_WriteBit
  by_cases h : byte bit = 0 <;>
    simp [Advances, h, THERM_OUTPUT, THERM_LOW, THERM_INPUT, delay_us, record]

theorem therm_ReadBit_fst (s : Avr) : (therm_ReadBit s).1 = lineBit s 0 := by
  have h := Nat.mod_two_eq_zero_or_one (s.PINC s.reads)
  rcases h with h | h <;>
    simp [therm_ReadBit, THERM_READ, THERM_OUTPUT, THERM_LOW, THERM_INPUT, delay_us, sample_eq,
      lineBit, h]

theorem therm_ReadBit_adv (s : Avr) :
    Advances s (therm_ReadBit s).2 1 [Call.ReadBit (lineBit s 0)] := by
  have h := Nat.mod_two_eq_zero_or_one (s.PINC s.reads)
  rcases h with h | h <;>
    simp [Advances, therm_ReadBit, THERM_READ, THERM_OUTPUT, THERM_LOW, THERM_INPUT, delay_us,
      record, sample_eq, lineBit, h]

/-! ## Byte framing -/

theorem bitOf_shift (x k : Nat) : bitOf (x >>> 1) k = bitOf x (k + 1) := by
  simp [bitOf, ← Nat.shiftRight_add, Nat.add_comm]

theorem bitOf_byte (x k : Nat) (hk : k < 8) : bitOf (byte x) k = bitOf x k := by
  simp only [bitOf, byte, Nat.shiftRight_eq_div_pow]
  interval_cases k <;> omega

theorem therm_WriteByte_loop_adv (i : Nat) : ∀ (data : Nat) (s : Avr), data < 256 →
    Advances s (therm_WriteByte_loop i data s) 0
      ((List.range i).map fun k => Call.WriteBit (bitOf data k)) := by
  induction i with
  | zero => intro data s _; simpa [therm_WriteByte_loop] using Advances.refl s
  | succ i ih =>
    intro data s hd
    have hs : data >>> 1 < 256 := by
      rw [Nat.shiftRight_eq_div_pow]; omega
    have h1 : byte (data % 2) = bitOf data 0 := by
      have : data % 2 < 256 := by omega
      simp [bitOf, byte_of_lt this]
    have step := (therm_WriteBit_adv (data &&& 1) s).trans
      (ih (data >>> 1) (therm_WriteBit (data &&& 1) s) hs)
    simp only [therm_WriteByte_loop, byte_of_lt hs]
    rw [List.range_succ_eq_map, List.map_cons, List.map_map]
    simpa [h1, bitOf_shift, Function.comp_def] using step

theorem therm_WriteByte_adv (x : Nat) (s : Avr) :
    Advances s (therm_WriteByte x s) 0 (writeSlots x) := by
  have h := therm_WriteByte_loop_adv 8 (byte x) s (byte_lt x)
  have e : ((List.range 8).map fun k => Call.WriteBit (bitOf (byte x) k)) = writeSlots x := by
    unfold writeSlots
    apply List.map_congr_left
    intro k hk
    rw [bitOf_byte x k (List.mem_range.mp hk)]
  rw [e] at h
  exact h

theorem lineBit_ReadBit (s : Avr) (k : Nat) :
    lineBit (therm_ReadBit s).2 k = lineBit s (k + 1) := by
  rw [(therm_ReadBit_adv s).lineBit k, Nat.add_comm]

theorem therm_ReadByte_loop_adv (i : Nat) : ∀ (data : Nat) (s : Avr),
    Advances s (therm_ReadByte_loop i data s).2 i
      ((List.range i).map fun k => Call.ReadBit (lineBit s k)) := by
  induction i with
  | zero => intro data s; simpa [therm_ReadByte_loop] using Advances.refl s
  | succ i ih =>
    intro data s
    have step := (therm_ReadBit_adv s).trans
      (ih (byte (byte (data >>> 1) ||| ((therm_ReadBit s).1 <<< 7))) (therm_ReadBit s).2)
    simp only [therm_ReadByte_loop]
    rw [List.range_succ_eq_map, List.map_cons, List.map_map, Nat.add_comm i 1]
    simpa [lineBit_ReadBit, Function.comp_def] using step

theorem therm_ReadByte_adv (s : Avr) :
    Advances s (therm_ReadByte s).2 8 (readSlots s 0) := by
  simpa [readSlots] using therm_ReadByte_loop_adv 8 0 s

set_option maxRecDepth 100000 in
theorem shift_in_bit : ∀ d < 256, ∀ b < 2,
    byte (byte (d >>> 1) ||| b <<< 7) = d / 2 + 128 * b := by
  decide

theorem therm_ReadByte_fst (s : Avr) : (therm_ReadByte s).1 = lineByte s 0 := by
  simp only [therm_ReadByte, therm_ReadByte_loop, therm_ReadBit_fst, lineBit_ReadBit]
  have h0 := lineBit_lt s 0
  have h1 := lineBit_lt s (0 + 1)
  have h2 := lineBit_lt s (0 + 1 + 1)
  have h3 := lineBit_lt s (0 + 1 + 1 + 1)
  have h4 := lineBit_lt s (0 + 1 + 1 + 1 + 1)
  have h5 := lineBit_lt s (0 + 1 + 1 + 1 + 1 + 1)
  have h6 := lineBit_lt s (0 + 1 + 1 + 1 + 1 + 1 + 1)
  have h7 := lineBit_lt s (0 + 1 + 1 + 1 + 1 + 1 + 1 + 1)
  rw [shift_in_bit 0 (by decide) _ h0]
  rw [shift_in_bit _ (by omega) _ h1]
  rw [shift_in_bit _ (by omega) _ h2]
  rw [shift_in_bit _ (by omega) _ h3]
  rw [shift_in_bit _ (by omega) _ h4]
  rw [shift_in_bit _ (by omega) _ h5]
  rw [shift_in_bit _ (by omega) _ h6]
  rw [shift_in_bit _ (by omega) _ h7]
  unfold lineByte
  simp only [Nat.zero_add, Nat.add_assoc, Nat.reduceAdd] at *
  omega

theorem bitOf_lineByte (s : Avr) (j k : Nat) (hk : k < 8) :
    bitOf (lineByte s j) k = lineBit s (j + k) := by
  have h0 := lineBit_lt s j
  have h1 := lineBit_lt s (j + 1)
  have h2 := lineBit_lt s (j + 2)
  have h3 := lineBit_lt s (j + 3)
  have h4 := lineBit_lt s (j + 4)
  have h5 := lineBit_lt s (j + 5)
  have h6 := lineBit_lt s (j + 6)
  have h7 := lineBit_lt s (j + 7)
  interval_cases k <;>
    simp only [bitOf, lineByte, Nat.shiftRight_eq_div_pow, Nat.add_zero, Nat.reducePow,
      Nat.div_one] <;> omega

/-! ## Addressing and the conversion exchange -/

theorem writeBytes_append (a b : List Nat) :
    writeBytes (a ++ b) = writeBytes a ++ writeBytes b := by
  induction a with
  | nil => rfl
  | cons x xs ih => simp [writeBytes, ih]

theorem therm_MatchRom_loop_adv (rom : List Nat) (n : Nat) : ∀ (i : Nat) (s : Avr),
    Advances s (therm_MatchRom_loop rom n i s) 0
      (writeBytes ((List.range n).map fun k => rom.getD (i + k) 0)) := by
  induction n with
  | zero => intro i s; simpa [therm_MatchRom_loop, writeBytes] using Advances.refl s
  | succ n ih =>
    intro i s
    have step := (therm_WriteByte_adv (rom.getD i 0) s).trans
      (ih (i + 1) (therm_WriteByte (rom.getD i 0) s))
    simp only [therm_MatchRom_loop]
    rw [List.range_succ_eq_map, List.map_cons, List.map_map]
    simpa [writeBytes, Function.comp_def, Nat.add_assoc, Nat.add_comm 1] using step

theorem therm_ReadTempRaw_address_adv (id : Option (List Nat)) (s : Avr) :
    Advances s (therm_ReadTempRaw_address id s) 0 (writeBytes (addressBytes id)) := by
  cases id with
  | none =>
    simpa [therm_ReadTempRaw_address, addressBytes, writeBytes]
      using therm_WriteByte_adv THERM_SKIPROM s
  | some rom =>
    have step := (therm_WriteByte_adv THERM_MATCHROM s).trans
      (therm_MatchRom_loop_adv rom 8 0 (therm_WriteByte THERM_MATCHROM s))
    simpa [therm_ReadTempRaw_address, therm_MatchRom, addressBytes, writeBytes] using step

theorem therm_ReadTempRaw_poll_done (n : Nat) : ∀ (s : Avr) (fuel : Nat),
    (∀ k < n, lineBit s k = 0) → lineBit s n = 1 → n < fuel →
    ∃ t, therm_ReadTempRaw_poll fuel s = some t ∧ Advances s t (n + 1) (pollSlots n) := by
  induction n with
  | zero =>
    intro s fuel _ h1 hf
    obtain ⟨f, rfl⟩ : ∃ f, fuel = f + 1 := ⟨fuel - 1, by omega⟩
    refine ⟨(therm_ReadBit s).2, ?_, ?_⟩
    · simp [therm_ReadTempRaw_poll, therm_ReadBit_fst, h1]
    · simpa [pollSlots, h1] using therm_ReadBit_adv s
  | succ n ih =>
    intro s fuel h0 h1 hf
    obtain ⟨f, rfl⟩ : ∃ f, fuel = f + 1 := ⟨fuel - 1, by omega⟩
    have hz : lineBit s 0 = 0 := h0 0 (Nat.succ_pos n)
    obtain ⟨t, ht, adv⟩ := ih (therm_ReadBit s).2 f
      (fun k hk => by rw [lineBit_ReadBit]; exact h0 (k + 1) (by omega))
      (by rw [lineBit_ReadBit]; exact h1) (by omega)
    refine ⟨t, ?_, ?_⟩
    · simp [therm_ReadTempRaw_poll, therm_ReadBit_fst, hz, ht]
    · have step := (therm_ReadBit_adv s).trans adv
      rw [hz] at step
      simpa [pollSlots, List.replicate_succ, Nat.add_comm 1] using step

theorem therm_ReadTempRaw_poll_busy (fuel : Nat) : ∀ (s : Avr),
    (∀ k, lineBit s k = 0) → therm_ReadTempRaw_poll fuel s = none := by
  induction fuel with
  | zero => intro s _; rfl
  | succ f ih =>
    intro s h
    have := ih (therm_ReadBit s).2 (fun k => by rw [lineBit_ReadBit]; exact h (k + 1))
    simp [therm_ReadTempRaw_poll, therm_ReadBit_fst, h 0, this]

theorem Advances.lineByte {s t : Avr} {m : Nat} {e : List Call} (h : Advances s t m e)
    (j : Nat) : lineByte t j = lineByte s (m + j) := by
  simp only [DS18B20.lineByte, h.lineBit, Nat.add_assoc]

theorem Advances.readSlots {s t : Avr} {m : Nat} {e : List Call} (h : Advances s t m e)
    (j : Nat) : readSlots t j = readSlots s (m + j) := by
  simp only [DS18B20.readSlots, h.lineBit, Nat.add_assoc]

/-- Phase 1 of `therm_ReadTempRaw` up to the poll (lines 320-323). -/
theorem therm_ReadTempRaw_phase1 (id : Option (List Nat)) (s : Avr) :
    Advances s
      (therm_WriteByte THERM_CONVERTTEMP (therm_ReadTempRaw_address id (therm_Reset s).2)) 1
      (Call.Reset (lineBit s 0) :: writeBytes (addressBytes id ++ [THERM_CONVERTTEMP])) := by
  have step := ((therm_Reset_adv s).trans
    (therm_ReadTempRaw_address_adv id (therm_Reset s).2)).trans
    (therm_WriteByte_adv THERM_CONVERTTEMP _)
  simpa [writeBytes_append, writeBytes] using step

/-- A temperature read whose poll sees 1 after `n` busy slots returns the two
bytes sampled after the second reset, with the trace `rawTrace`. -/
theorem therm_ReadTempRaw_run (fuel : Nat) (id : Option (List Nat)) (s : Avr) (n : Nat)
    (hdone : ConversionDone s n) (hfuel : n < fuel) :
    ∃ t, therm_ReadTempRaw fuel id s = some ((lineByte s (n + 3), lineByte s (n + 11)), t)
      ∧ Advances s t (n + 19) (rawTrace id s n) := by
  have p1 := therm_ReadTempRaw_phase1 id s
  obtain ⟨t, ht, adv⟩ := therm_ReadTempRaw_poll_done n _ fuel
    (fun k hk => by rw [p1.lineBit, Nat.add_comm]; exact hdone.1 k hk)
    (by rw [p1.lineBit, Nat.add_comm]; exact hdone.2) hfuel
  have p2 := p1.trans adv
  rw [show 1 + (n + 1) = n + 2 by omega] at p2
  have p3 := ((p2.trans (therm_Reset_adv t)).trans
    (therm_ReadTempRaw_address_adv id (therm_Reset t).2)).trans
    (therm_WriteByte_adv THERM_READSCRATCH _)
  rw [show n + 2 + 1 + 0 + 0 = n + 3 by omega, p2.lineBit, Nat.add_zero] at p3
  have p4 := p3.trans (therm_ReadByte_adv _)
  rw [show n + 3 + 8 = n + 11 by omega, p3.readSlots, Nat.add_zero] at p4
  have p5 := p4.trans (therm_ReadByte_adv _)
  rw [show n + 11 + 8 = n + 19 by omega, p4.readSlots, Nat.add_zero] at p5
  refine ⟨(therm_ReadByte (therm_ReadByte (therm_WriteByte THERM_READSCRATCH
    (therm_ReadTempRaw_address id (therm_Reset t).2))).2).2, ?_, ?_⟩
  · simp only [therm_ReadTempRaw, ht, therm_ReadByte_fst]
    rw [p3.lineByte, p4.lineByte, Nat.add_zero, Nat.add_zero]
  · simpa [rawTrace, writeBytes_append, writeBytes, List.append_assoc] using p5

theorem therm_ReadTempRaw_hang (fuel : Nat) (id : Option (List Nat)) (s : Avr)
    (hbusy : ∀ k, lineBit s (k + 1) = 0) : therm_ReadTempRaw fuel id s = none := by
  have p1 := therm_ReadTempRaw_phase1 id s
  have := therm_ReadTempRaw_poll_busy fuel _
    (fun k => by rw [p1.lineBit, Nat.add_comm]; exact hbusy k)
  simp [therm_ReadTempRaw, this]

/-! ## Decoding -/

theorem int16_fits (x : Int) : fits16 (int16 x) := by
  unfold fits16 int16; omega

theorem int16_add_left (a b : Int) : int16 (int16 a + b) = int16 (a + b) := by
  unfold int16; omega

theorem tdiv_split (x k : Int) (hk : 0 < k) :
    (0 ≤ x ∧ Int.tdiv x k = x / k) ∨ (x < 0 ∧ Int.tdiv x k = -((-x) / k)) := by
  by_cases h : 0 ≤ x
  · exact Or.inl ⟨h, Int.tdiv_eq_ediv h (Int.le_of_lt hk)⟩
  · right
    refine ⟨by omega, ?_⟩
    have e := Int.neg_tdiv (-x) k
    rw [Int.neg_neg] at e
    rw [e, Int.tdiv_eq_ediv (by omega) (Int.le_of_lt hk)]

theorem int16_tdiv_eight {x : Int} (h : fits16 x) : int16 (Int.tdiv x 8) = Int.tdiv x 8 := by
  apply int16_of_fits
  unfold fits16 at *
  rcases tdiv_split x 8 (by decide) with ⟨_, e⟩ | ⟨_, e⟩ <;> rw [e] <;> omega

theorem int16_tdiv_ten {x : Int} (h : fits16 x) : int16 (Int.tdiv x 10) = Int.tdiv x 10 := by
  apply int16_of_fits
  unfold fits16 at *
  rcases tdiv_split x 10 (by decide) with ⟨_, e⟩ | ⟨_, e⟩ <;> rw [e] <;> omega

theorem int16_tmod_ten (x : Int) : int16 (Int.tmod x 10) = Int.tmod x 10 := by
  apply int16_of_fits
  unfold fits16
  rw [Int.tmod_def]
  rcases tdiv_split x 10 (by decide) with ⟨_, e⟩ | ⟨_, e⟩ <;> rw [e] <;> omega

theorem rawValue_eq (t0 t1 : Nat) (h0 : t0 < 256) (h1 : t1 < 256) :
    int16 (int16 ((t1 : Int) * 2 ^ 8) + (t0 : Int)) = rawValue t0 t1 := by
  unfold rawValue int16
  split <;> push_cast <;> omega

theorem rawValue_fits (t0 t1 : Nat) (h0 : t0 < 256) (h1 : t1 < 256) :
    fits16 (rawValue t0 t1) := by
  rw [← rawValue_eq t0 t1 h0 h1]; exact int16_fits _

theorem therm_ReadTempF_decode_eq (t0 t1 : Nat) (h0 : t0 < 256) (h1 : t1 < 256) :
    therm_ReadTempF_decode t0 t1
      = (Int.tdiv (tenthsF (rawValue t0 t1)) 10, Int.tmod (tenthsF (rawValue t0 t1)) 10) := by
  have hr := rawValue_fits t0 t1 h0 h1
  simp only [therm_ReadTempF_decode, byte_of_lt h0, byte_of_lt h1, rawValue_eq t0 t1 h0 h1,
    int16_tdiv_eight hr, int16_add_left, int16_tmod_ten]
  rw [int16_tdiv_ten (int16_fits _)]
  rfl

theorem or_nibbles : ∀ a < 8, ∀ d < 16, (a <<< 4) ||| d = a * 16 + d := by
  decide

theorem therm_ReadTempC_decode_eq (t0 t1 : Nat) (h0 : t0 < 256) (h1 : t1 < 256) :
    therm_ReadTempC_decode t0 t1
      = ((((t1 &&& 0x07) <<< 4 ||| (t0 >>> 4) : Nat) : Int), (((t0 &&& 0x0F) * 625 : Nat) : Int)) := by
  have a1 : t1 &&& 7 ≤ 7 := Nat.and_le_right
  have a0 : t0 &&& 15 ≤ 15 := Nat.and_le_right
  have l1 : Int.land (t1 : Int) 0x07 = ((t1 &&& 7 : Nat) : Int) := rfl
  have l0 : Int.land (t0 : Int) 0x0F = ((t0 &&& 15 : Nat) : Int) := rfl
  have e1 : int16 (((t1 &&& 7 : Nat) : Int) * 2 ^ 4) = (((t1 &&& 7) <<< 4 : Nat) : Int) := by
    rw [Nat.shiftLeft_eq, int16_of_fits (by unfold fits16; omega)]
    push_cast; rfl
  have e0 : int16 (((t0 &&& 15 : Nat) : Int) * 625) = (((t0 &&& 15) * 625 : Nat) : Int) := by
    rw [int16_of_fits (by unfold fits16; omega)]
    push_cast; rfl
  simp only [therm_ReadTempC_decode, byte_of_lt h0, byte_of_lt h1, l1, l0, e1, e0]
  rfl

theorem therm_ReadTempC_low_bits (t0 b1 : Nat) :
    therm_ReadTempC_decode t0 b1 = therm_ReadTempC_decode t0 (b1 % 8) := by
  have l : ∀ m : Nat, Int.land (m : Int) 0x07 = ((m &&& (2 ^ 3 - 1) : Nat) : Int) := fun _ => rfl
  have e : byte b1 % 2 ^ 3 = byte (b1 % 8) % 2 ^ 3 := by
    unfold byte; omega
  simp only [therm_ReadTempC_decode, l, Nat.and_pow_two_sub_one_eq_mod, e]

theorem floor_tenths (N : Nat) :
    ⌊(10 : ℚ) * ((9 / 5) * (N : ℚ) / 16 + 32)⌋ = (9 * (N : Int)) / 8 + 320 := by
  rw [Int.floor_eq_iff]
  have h1 : 8 * ((9 * (N : Int)) / 8) ≤ 9 * (N : Int) := by omega
  have h2 : 9 * (N : Int) < 8 * ((9 * (N : Int)) / 8) + 8 := by omega
  generalize (9 * (N : Int)) / 8 = q at h1 h2 ⊢
  have h1q : (8 : ℚ) * (q : ℚ) ≤ 9 * (N : ℚ) := by exact_mod_cast h1
  have h2q : 9 * (N : ℚ) < 8 * (q : ℚ) + 8 := by exact_mod_cast h2
  push_cast
  constructor <;> linarith

/-! ## The claims -/

set_option maxRecDepth 100000 in
/-- C1: on every bus whose conversion poll ends, `therm_ReadTempC` returns, and for
the register bytes `(t0, t1)` that `therm_ReadTempRaw` read it yields
`whole = ((t1 & 0x07) << 4) | (t0 >> 4)` and `decimal = (t0 & 0x0F) * 625`; the
decode uses only the low three bits of the second byte, and the bytes
`(0x91, 0x01)` decode to `(25, 625)`, also end to end on the bus `busWarm`. -/
theorem therm_ReadTempC_formula (fuel : Nat) (id : Option (List Nat)) (s : Avr) (n : Nat)
    (hdone : ConversionDone s n) (hfuel : n < fuel) :
    ∃ t0 t1 s', therm_ReadTempRaw fuel id s = some ((t0, t1), s')
      ∧ therm_ReadTempC fuel id s
          = some (((((t1 &&& 0x07) <<< 4 ||| (t0 >>> 4) : Nat) : Int),
                   (((t0 &&& 0x0F) * 625 : Nat) : Int)), s')
      ∧ (∀ b1, therm_ReadTempC_decode t0 b1 = therm_ReadTempC_decode t0 (b1 % 8))
      ∧ therm_ReadTempC_decode 0x91 0x01 = (25, 625)
      ∧ (therm_ReadTempRaw 5 (some rom0) busWarm).map Prod.fst = some (0x91, 0x01)
      ∧ (therm_ReadTempC 5 (some rom0) busWarm).map Prod.fst = some (25, 625) := by
  obtain ⟨t, ht, _⟩ := therm_ReadTempRaw_run fuel id s n hdone hfuel
  refine ⟨_, _, t, ht, ?_, therm_ReadTempC_low_bits _, by decide, by decide, by decide⟩
  simp only [therm_ReadTempC, ht]
  rw [therm_ReadTempC_decode_eq _ _ (lineByte_lt s _) (lineByte_lt s _)]

set_option maxRecDepth 100000 in
/-- C1 on the bus `busWarm` (two busy poll slots, then `0x91`, `0x01`). -/
theorem therm_ReadTempC_formula_witness :
    ConversionDone busWarm 2 ∧ 2 < 5 ∧
    ∃ t0 t1 s', therm_ReadTempRaw 5 (some rom0) busWarm = some ((t0, t1), s')
      ∧ therm_ReadTempC 5 (some rom0) busWarm
          = some (((((t1 &&& 0x07) <<< 4 ||| (t0 >>> 4) : Nat) : Int),
                   (((t0 &&& 0x0F) * 625 : Nat) : Int)), s')
      ∧ (∀ b1, therm_ReadTempC_decode t0 b1 = therm_ReadTempC_decode t0 (b1 % 8))
      ∧ therm_ReadTempC_decode 0x91 0x01 = (25, 625)
      ∧ (therm_ReadTempRaw 5 (some rom0) busWarm).map Prod.fst = some (0x91, 0x01)
      ∧ (therm_ReadTempC 5 (some rom0) busWarm).map Prod.fst = some (25, 625) :=
  ⟨by decide, by decide,
    therm_ReadTempC_formula 5 (some rom0) busWarm 2 (by decide) (by decide)⟩

set_option maxRecDepth 100000 in
/-- C2: on every bus whose conversion poll ends, `therm_ReadTempF` returns, and for
the register bytes `(t0, t1)` read it yields `whole = tenthsF / 10` and
`decimal = tenthsF mod 10` (both truncating toward zero), where
`tenthsF = raw + raw/8 + 320` in the 16-bit `int` and `raw` is the two's-complement
value of `t1:t0`; the bytes `(0x90, 0x01)` are `raw = 0x0190` and decode to `(77, 0)`,
also end to end on the bus `busRoom`. -/
theorem therm_ReadTempF_formula (fuel : Nat) (id : Option (List Nat)) (s : Avr) (n : Nat)
    (hdone : ConversionDone s n) (hfuel : n < fuel) :
    ∃ t0 t1 s', therm_ReadTempRaw fuel id s = some ((t0, t1), s')
      ∧ therm_ReadTempF fuel id s
          = some ((Int.tdiv (tenthsF (rawValue t0 t1)) 10,
                   Int.tmod (tenthsF (rawValue t0 t1)) 10), s')
      ∧ rawValue 0x90 0x01 = 0x0190
      ∧ therm_ReadTempF_decode 0x90 0x01 = (77, 0)
      ∧ (therm_ReadTempRaw 1 (some rom0) busRoom).map Prod.fst = some (0x90, 0x01)
      ∧ (therm_ReadTempF 1 (some rom0) busRoom).map Prod.fst = some (77, 0) := by
  obtain ⟨t, ht, _⟩ := therm_ReadTempRaw_run fuel id s n hdone hfuel
  refine ⟨_, _, t, ht, ?_, by decide, by decide, by decide, by decide⟩
  simp only [therm_ReadTempF, ht]
  rw [therm_ReadTempF_decode_eq _ _ (lineByte_lt s _) (lineByte_lt s _)]

set_option maxRecDepth 100000 in
/-- C2 on the bus `busWarm`. -/
theorem therm_ReadTempF_formula_witness :
    ConversionDone busWarm 2 ∧ 2 < 5 ∧
    ∃ t0 t1 s', therm_ReadTempRaw 5 (some rom0) busWarm = some ((t0, t1), s')
      ∧ therm_ReadTempF 5 (some rom0) busWarm
          = some ((Int.tdiv (tenthsF (rawValue t0 t1)) 10,
                   Int.tmod (tenthsF (rawValue t0 t1)) 10), s')
      ∧ rawValue 0x90 0x01 = 0x0190
      ∧ therm_ReadTempF_decode 0x90 0x01 = (77, 0)
      ∧ (therm_ReadTempRaw 1 (some rom0) busRoom).map Prod.fst = some (0x90, 0x01)
      ∧ (therm_ReadTempF 1 (some rom0) busRoom).map Prod.fst = some (77, 0) :=
  ⟨by decide, by decide,
    therm_ReadTempF_formula 5 (some rom0) busWarm 2 (by decide) (by decide)⟩

/-- C3: when the register read is in the non-negative range (`t1 ≤ 7`, so
`raw = t1*256 + t0 ≤ 0x07FF`), `therm_ReadTempC` returns `raw/16` degrees exactly:
`whole = raw div 16`, `decimal = (raw mod 16) * 625` with `0 ≤ decimal ≤ 9375`, and
`whole * 10000 + decimal = raw * 625`. -/
theorem therm_ReadTempC_sixteenths (fuel : Nat) (id : Option (List Nat)) (s : Avr) (n : Nat)
    (hdone : ConversionDone s n) (hfuel : n < fuel) (hpos : lineByte s (n + 11) ≤ 7) :
    ∃ t0 t1 s' whole decimal, therm_ReadTempRaw fuel id s = some ((t0, t1), s')
      ∧ t0 < 256 ∧ t1 ≤ 7
      ∧ therm_ReadTempC fuel id s = some ((whole, decimal), s')
      ∧ whole = (((t1 * 256 + t0) / 16 : Nat) : Int)
      ∧ decimal = ((((t1 * 256 + t0) % 16) * 625 : Nat) : Int)
      ∧ 0 ≤ decimal ∧ decimal ≤ 9375
      ∧ whole * 10000 + decimal = ((t1 * 256 + t0 : Nat) : Int) * 625 := by
  obtain ⟨t, ht, _⟩ := therm_ReadTempRaw_run fuel id s n hdone hfuel
  have h0 := lineByte_lt s (n + 3)
  generalize lineByte s (n + 3) = t0 at ht h0
  generalize lineByte s (n + 11) = t1 at ht hpos
  have hw : (t1 &&& 0x07) <<< 4 ||| (t0 >>> 4) = (t1 * 256 + t0) / 16 := by
    have a : t1 &&& (2 ^ 3 - 1) = t1 := by
      rw [Nat.and_pow_two_sub_one_eq_mod]; omega
    have b : t0 >>> 4 < 16 := by
      rw [Nat.shiftRight_eq_div_pow]; omega
    have c := or_nibbles t1 (by omega) (t0 >>> 4) b
    rw [Nat.shiftRight_eq_div_pow] at c ⊢
    rw [show (0x07 : Nat) = 2 ^ 3 - 1 by rfl, a, c]
    omega
  have hd : (t0 &&& 0x0F) = (t1 * 256 + t0) % 16 := by
    rw [show (0x0F : Nat) = 2 ^ 4 - 1 by rfl, Nat.and_pow_two_sub_one_eq_mod]; omega
  refine ⟨t0, t1, t, _, _, ht, h0, hpos, ?_, rfl, rfl, ?_, ?_, ?_⟩
  · simp only [therm_ReadTempC, ht]
    rw [therm_ReadTempC_decode_eq _ _ h0 (by omega), hw, hd]
  · omega
  · omega
  · omega

set_option maxRecDepth 100000 in
/-- C3 on the bus `busWarm`, whose register is `0x0191`. -/
theorem therm_ReadTempC_sixteenths_witness :
    ConversionDone busWarm 2 ∧ 2 < 5 ∧ lineByte busWarm (2 + 11) ≤ 7 ∧
    ∃ t0 t1 s' whole decimal, therm_ReadTempRaw 5 (some rom0) busWarm = some ((t0, t1), s')
      ∧ t0 < 256 ∧ t1 ≤ 7
      ∧ therm_ReadTempC 5 (some rom0) busWarm = some ((whole, decimal), s')
      ∧ whole = (((t1 * 256 + t0) / 16 : Nat) : Int)
      ∧ decimal = ((((t1 * 256 + t0) % 16) * 625 : Nat) : Int)
      ∧ 0 ≤ decimal ∧ decimal ≤ 9375
      ∧ whole * 10000 + decimal = ((t1 * 256 + t0 : Nat) : Int) * 625 :=
  ⟨by decide, by decide, by decide,
    therm_ReadTempC_sixteenths 5 (some rom0) busWarm 2 (by decide) (by decide) (by decide)⟩

/-- C10: when the register read is in the non-negative range (`t1 ≤ 7`, so
`raw = t1*256 + t0 ≤ 0x07FF`), no intermediate value of `therm_ReadTempF` leaves the
16-bit `int`, `0 ≤ decimal ≤ 9`, and
`10 * whole + decimal = ⌊9 * raw / 8⌋ + 320 = ⌊10 * (1.8 * raw / 16 + 32)⌋`. -/
theorem therm_ReadTempF_tenths (fuel : Nat) (id : Option (List Nat)) (s : Avr) (n : Nat)
    (hdone : ConversionDone s n) (hfuel : n < fuel) (hpos : lineByte s (n + 11) ≤ 7) :
    ∃ (t0 t1 : Nat) (s' : Avr) (whole decimal : Int),
      therm_ReadTempRaw fuel id s = some ((t0, t1), s')
      ∧ t0 < 256 ∧ t1 ≤ 7
      ∧ therm_ReadTempF fuel id s = some ((whole, decimal), s')
      ∧ fits16 ((t1 : Int) * 2 ^ 8)
      ∧ fits16 ((t1 : Int) * 2 ^ 8 + t0)
      ∧ fits16 (((t1 * 256 + t0 : Nat) : Int) + ((t1 * 256 + t0 : Nat) : Int) / 8)
      ∧ fits16 (((t1 * 256 + t0 : Nat) : Int) + ((t1 * 256 + t0 : Nat) : Int) / 8 + 320)
      ∧ whole = (((t1 * 256 + t0 : Nat) : Int) + ((t1 * 256 + t0 : Nat) : Int) / 8 + 320) / 10
      ∧ decimal = (((t1 * 256 + t0 : Nat) : Int) + ((t1 * 256 + t0 : Nat) : Int) / 8 + 320) % 10
      ∧ 0 ≤ decimal ∧ decimal ≤ 9
      ∧ 10 * whole + decimal = (9 * ((t1 * 256 + t0 : Nat) : Int)) / 8 + 320
      ∧ (9 * ((t1 * 256 + t0 : Nat) : Int)) / 8 + 320
          = ⌊(10 : ℚ) * ((9 / 5) * ((t1 * 256 + t0 : Nat) : ℚ) / 16 + 32)⌋ := by
  obtain ⟨t, ht, _⟩ := therm_ReadTempRaw_run fuel id s n hdone hfuel
  have h0 := lineByte_lt s (n + 3)
  generalize lineByte s (n + 3) = t0 at ht h0
  generalize lineByte s (n + 11) = t1 at ht hpos
  have hraw : rawValue t0 t1 = ((t1 * 256 + t0 : Nat) : Int) := by
    unfold rawValue; rw [if_pos (by omega)]
  have hdiv : Int.tdiv ((t1 * 256 + t0 : Nat) : Int) 8 = ((t1 * 256 + t0 : Nat) : Int) / 8 :=
    Int.tdiv_eq_ediv (by omega) (by decide)
  have hten : tenthsF (rawValue t0 t1)
      = ((t1 * 256 + t0 : Nat) : Int) + ((t1 * 256 + t0 : Nat) : Int) / 8 + 320 := by
    unfold tenthsF
    rw [hraw, hdiv]
    apply int16_of_fits
    unfold fits16; omega
  refine ⟨t0, t1, t, _, _, ht, h0, hpos, ?_, ?_, ?_, ?_, ?_, rfl, rfl, ?_, ?_, ?_, ?_⟩
  · simp only [therm_ReadTempF, ht]
    rw [therm_ReadTempF_decode_eq _ _ h0 (by omega), hten,
      Int.tdiv_eq_ediv (by omega) (by decide), Int.tmod_eq_emod (by omega) (by decide)]
  · unfold fits16; omega
  · unfold fits16; omega
  · unfold fits16; omega
  · unfold fits16; omega
  · omega
  · omega
  · omega
  · exact (floor_tenths _).symm

set_option maxRecDepth 100000 in
/-- C10 on the bus `busWarm`, whose register is `0x0191`. -/
theorem therm_ReadTempF_tenths_witness :
    ConversionDone busWarm 2 ∧ 2 < 5 ∧ lineByte busWarm (2 + 11) ≤ 7 ∧
    ∃ (t0 t1 : Nat) (s' : Avr) (whole decimal : Int),
      therm_ReadTempRaw 5 (some rom0) busWarm = some ((t0, t1), s')
      ∧ t0 < 256 ∧ t1 ≤ 7
      ∧ therm_ReadTempF 5 (some rom0) busWarm = some ((whole, decimal), s')
      ∧ fits16 ((t1 : Int) * 2 ^ 8)
      ∧ fits16 ((t1 : Int) * 2 ^ 8 + t0)
      ∧ fits16 (((t1 * 256 + t0 : Nat) : Int) + ((t1 * 256 + t0 : Nat) : Int) / 8)
      ∧ fits16 (((t1 * 256 + t0 : Nat) : Int) + ((t1 * 256 + t0 : Nat) : Int) / 8 + 320)
      ∧ whole = (((t1 * 256 + t0 : Nat) : Int) + ((t1 * 256 + t0 : Nat) : Int) / 8 + 320) / 10
      ∧ decimal = (((t1 * 256 + t0 : Nat) : Int) + ((t1 * 256 + t0 : Nat) : Int) / 8 + 320) % 10
      ∧ 0 ≤ decimal ∧ decimal ≤ 9
      ∧ 10 * whole + decimal = (9 * ((t1 * 256 + t0 : Nat) : Int)) / 8 + 320
      ∧ (9 * ((t1 * 256 + t0 : Nat) : Int)) / 8 + 320
          = ⌊(10 : ℚ) * ((9 / 5) * ((t1 * 256 + t0 : Nat) : ℚ) / 16 + 32)⌋ :=
  ⟨by decide, by decide, by decide,
    therm_ReadTempF_tenths 5 (some rom0) busWarm 2 (by decide) (by decide) (by decide)⟩

/-- C5: `therm_WriteByte x` makes exactly eight `therm_WriteBit` calls and the `k`-th
writes bit `k` of `x`, bit 0 first; `therm_ReadByte` makes exactly eight
`therm_ReadBit` calls and bit `k` of its result is what the `k`-th call returned. -/
theorem byte_slots_lsb_first (x : Nat) (s : Avr) :
    (therm_WriteByte x s).calls
        = s.calls ++ [Call.WriteBit (bitOf x 0), Call.WriteBit (bitOf x 1),
            Call.WriteBit (bitOf x 2), Call.WriteBit (bitOf x 3), Call.WriteBit (bitOf x 4),
            Call.WriteBit (bitOf x 5), Call.WriteBit (bitOf x 6), Call.WriteBit (bitOf x 7)]
    ∧ (therm_ReadByte s).2.calls
        = s.calls ++ [Call.ReadBit (lineBit s 0), Call.ReadBit (lineBit s 1),
            Call.ReadBit (lineBit s 2), Call.ReadBit (lineBit s 3), Call.ReadBit (lineBit s 4),
            Call.ReadBit (lineBit s 5), Call.ReadBit (lineBit s 6), Call.ReadBit (lineBit s 7)]
    ∧ (therm_ReadByte s).2.reads = s.reads + 8
    ∧ (therm_ReadByte s).1 < 256
    ∧ ∀ k : Fin 8, bitOf (therm_ReadByte s).1 k = lineBit s k := by
  refine ⟨?_, ?_, (therm_ReadByte_adv s).2.1, ?_, ?_⟩
  · rw [(therm_WriteByte_adv x s).2.2]; rfl
  · rw [(therm_ReadByte_adv s).2.2]
    simp [readSlots, List.range_succ]
  · rw [therm_ReadByte_fst]; exact lineByte_lt s 0
  · intro k
    rw [therm_ReadByte_fst, bitOf_lineByte s 0 k k.isLt, Nat.zero_add]

/-- C6: for a byte `x`, when the bit written by the `k`-th write slot of
`therm_WriteByte x` is the bit sampled by the `k`-th read slot of `therm_ReadByte`
(`k = 0..7`), `therm_ReadByte` returns `x`. -/
theorem byte_round_trip (x : Nat) (hx : x < 256) (s r : Avr)
    (hwire : ∀ k < 8,
      (therm_WriteByte x s).calls[s.calls.length + k]? = some (Call.WriteBit (lineBit r k))) :
    (therm_ReadByte r).1 = x := by
  have hb : ∀ k < 8, lineBit r k = bitOf x k := by
    intro k hk
    have h := hwire k hk
    rw [(therm_WriteByte_adv x s).2.2, List.getElem?_append_right (Nat.le_add_right _ _),
      Nat.add_sub_cancel_left] at h
    have e : (writeSlots x)[k]? = some (Call.WriteBit (bitOf x k)) := by
      interval_cases k <;> rfl
    rw [e] at h
    injection h with h
    injection h with h
    exact h.symm
  rw [therm_ReadByte_fst]
  unfold lineByte
  rw [hb 0 (by decide), hb (0 + 1) (by decide), hb (0 + 2) (by decide), hb (0 + 3) (by decide),
    hb (0 + 4) (by decide), hb (0 + 5) (by decide), hb (0 + 6) (by decide),
    hb (0 + 7) (by decide)]
  simp only [bitOf, Nat.shiftRight_eq_div_pow, Nat.zero_add]
  omega

set_option maxRecDepth 100000 in
/-- C6 for `x = 0xA5`, written on an idle bus and read back from a line that
carries the bits 1,0,1,0,0,1,0,1. -/
theorem byte_round_trip_witness :
    0xA5 < 256 ∧
    (∀ k < 8, (therm_WriteByte 0xA5 busEmpty).calls[busEmpty.calls.length + k]?
      = some (Call.WriteBit (lineBit (boot (pinOfBits [1, 0, 1, 0, 0, 1, 0, 1])) k))) ∧
    (therm_ReadByte (boot (pinOfBits [1, 0, 1, 0, 0, 1, 0, 1]))).1 = 0xA5 :=
  ⟨by decide, by decide,
    byte_round_trip 0xA5 (by decide) busEmpty (boot (pinOfBits [1, 0, 1, 0, 0, 1, 0, 1]))
      (by decide)⟩

theorem addressBytes_some (id : List Nat) (hid : id.length = 8) :
    addressBytes (some id) = 0x55 :: id := by
  have e : ((List.range 8).map fun i => id.getD i 0) = id := by
    apply List.ext_getElem (by simp [hid])
    intro i h1 h2
    simp [List.getD_eq_getElem?_getD, List.getElem?_eq_getElem h2]
  simp only [addressBytes, e, THERM_MATCHROM]

/-- C7: with an 8-byte address `id`, on every bus whose conversion poll reads 1
after `n` busy slots, `therm_ReadTempRaw` runs, in this order, a reset, the byte
writes `0x55, id[0..7], 0x44`, the poll, a second reset, the byte writes
`0x55, id[0..7], 0xBE`, and two byte reads whose values it returns as `(t0, t1)` in
the order read; with the null pointer the nine addressing bytes of each phase are
the single byte `0xCC` and nothing else changes. -/
theorem therm_ReadTempRaw_sequence (fuel : Nat) (id : List Nat) (s : Avr) (n : Nat)
    (hid : id.length = 8) (hdone : ConversionDone s n) (hfuel : n < fuel) :
    (∃ s', therm_ReadTempRaw fuel (some id) s
          = some ((lineByte s (n + 3), lineByte s (n + 11)), s')
        ∧ s'.calls = s.calls
            ++ Call.Reset (lineBit s 0) :: writeBytes (0x55 :: id ++ [0x44])
            ++ pollSlots n
            ++ Call.Reset (lineBit s (n + 2)) :: writeBytes (0x55 :: id ++ [0xBE])
            ++ readSlots s (n + 3) ++ readSlots s (n + 11))
    ∧ (∃ s', therm_ReadTempRaw fuel none s
          = some ((lineByte s (n + 3), lineByte s (n + 11)), s')
        ∧ s'.calls = s.calls
            ++ Call.Reset (lineBit s 0) :: writeBytes [0xCC, 0x44]
            ++ pollSlots n
            ++ Call.Reset (lineBit s (n + 2)) :: writeBytes [0xCC, 0xBE]
            ++ readSlots s (n + 3) ++ readSlots s (n + 11)) := by
  constructor
  · obtain ⟨t, ht, adv⟩ := therm_ReadTempRaw_run fuel (some id) s n hdone hfuel
    refine ⟨t, ht, ?_⟩
    rw [adv.2.2, rawTrace, addressBytes_some id hid]
    simp [THERM_CONVERTTEMP, THERM_READSCRATCH]
  · obtain ⟨t, ht, adv⟩ := therm_ReadTempRaw_run fuel none s n hdone hfuel
    refine ⟨t, ht, ?_⟩
    rw [adv.2.2, rawTrace]
    simp [addressBytes, THERM_SKIPROM, THERM_CONVERTTEMP, THERM_READSCRATCH]

set_option maxRecDepth 100000 in
/-- C7 on the bus `busWarm` with the address `rom0`. -/
theorem therm_ReadTempRaw_sequence_witness :
    rom0.length = 8 ∧ ConversionDone busWarm 2 ∧ 2 < 5 ∧
    (∃ s', therm_ReadTempRaw 5 (some rom0) busWarm
          = some ((lineByte busWarm (2 + 3), lineByte busWarm (2 + 11)), s')
        ∧ s'.calls = busWarm.calls
            ++ Call.Reset (lineBit busWarm 0) :: writeBytes (0x55 :: rom0 ++ [0x44])
            ++ pollSlots 2
            ++ Call.Reset (lineBit busWarm (2 + 2)) :: writeBytes (0x55 :: rom0 ++ [0xBE])
            ++ readSlots busWarm (2 + 3) ++ readSlots busWarm (2 + 11))
    ∧ (∃ s', therm_ReadTempRaw 5 none busWarm
          = some ((lineByte busWarm (2 + 3), lineByte busWarm (2 + 11)), s')
        ∧ s'.calls = busWarm.calls
            ++ Call.Reset (lineBit busWarm 0) :: writeBytes [0xCC, 0x44]
            ++ pollSlots 2
            ++ Call.Reset (lineBit busWarm (2 + 2)) :: writeBytes [0xCC, 0xBE]
            ++ readSlots busWarm (2 + 3) ++ readSlots busWarm (2 + 11)) :=
  ⟨by decide, by decide, by decide,
    therm_ReadTempRaw_sequence 5 rom0 busWarm 2 (by decide) (by decide) (by decide)⟩

/-- C8: if the first `n` poll slots read 0 and the next reads 1, `therm_ReadTempRaw`
returns and made exactly `n + 1` poll reads between the conversion command and the
second reset; every `n` occurs on some bus; and on a bus whose poll slots always
read 0, such as `busStuck`, the call does not return, whatever the number of
iterations allowed. -/
theorem therm_ReadTempRaw_spin_wait (fuel : Nat) (id : Option (List Nat)) (s : Avr) (n : Nat)
    (hdone : ConversionDone s n) (hfuel : n < fuel) :
    (∃ r, therm_ReadTempRaw fuel id s = some r
        ∧ r.2.calls = s.calls
            ++ Call.Reset (lineBit s 0) :: writeBytes (addressBytes id ++ [0x44])
            ++ (List.replicate n (Call.ReadBit 0) ++ [Call.ReadBit 1])
            ++ Call.Reset (lineBit s (n + 2)) :: writeBytes (addressBytes id ++ [0xBE])
            ++ readSlots s (n + 3) ++ readSlots s (n + 11)
        ∧ (List.replicate n (Call.ReadBit 0) ++ [Call.ReadBit 1]).length = n + 1
        ∧ r.2.reads = s.reads + (1 + (n + 1) + 1 + 8 + 8))
    ∧ (∀ m : Nat, ∃ bus : Avr, ConversionDone bus m)
    ∧ (∀ bus : Avr, (∀ k, lineBit bus (k + 1) = 0) →
        ∀ fuel', therm_ReadTempRaw fuel' id bus = none)
    ∧ (∀ fuel', therm_ReadTempRaw fuel' id busStuck = none) := by
  refine ⟨?_, ?_, ?_, fun fuel' => therm_ReadTempRaw_hang fuel' id busStuck (fun k => rfl)⟩
  · obtain ⟨t, ht, adv⟩ := therm_ReadTempRaw_run fuel id s n hdone hfuel
    refine ⟨_, ht, ?_, by simp, ?_⟩
    · rw [adv.2.2, rawTrace]
      simp [pollSlots, THERM_CONVERTTEMP, THERM_READSCRATCH]
    · rw [adv.2.1]; omega
  · intro m
    refine ⟨boot (fun k => if k = m + 1 then 1 else 0), ?_, ?_⟩
    · intro k hk
      have : k + 1 ≠ m + 1 := by omega
      simp [lineBit, boot, this]
    · simp [lineBit, boot]
  · intro bus hbusy fuel'
    exact therm_ReadTempRaw_hang fuel' id bus hbusy

set_option maxRecDepth 100000 in
/-- C8 on the bus `busWarm`, whose poll sees two busy slots. -/
theorem therm_ReadTempRaw_spin_wait_witness :
    ConversionDone busWarm 2 ∧ 2 < 5 ∧
    (∃ r, therm_ReadTempRaw 5 (some rom0) busWarm = some r
        ∧ r.2.calls = busWarm.calls
            ++ Call.Reset (lineBit busWarm 0) :: writeBytes (addressBytes (some rom0) ++ [0x44])
            ++ (List.replicate 2 (Call.ReadBit 0) ++ [Call.ReadBit 1])
            ++ Call.Reset (lineBit busWarm (2 + 2))
                :: writeBytes (addressBytes (some rom0) ++ [0xBE])
            ++ readSlots busWarm (2 + 3) ++ readSlots busWarm (2 + 11)
        ∧ (List.replicate 2 (Call.ReadBit 0) ++ [Call.ReadBit 1]).length = 2 + 1
        ∧ r.2.reads = busWarm.reads + (1 + (2 + 1) + 1 + 8 + 8))
    ∧ (∀ m : Nat, ∃ bus : Avr, ConversionDone bus m)
    ∧ (∀ bus : Avr, (∀ k, lineBit bus (k + 1) = 0) →
        ∀ fuel', therm_ReadTempRaw fuel' (some rom0) bus = none)
    ∧ (∀ fuel', therm_ReadTempRaw fuel' (some rom0) busStuck = none) :=
  ⟨by decide, by decide,
    therm_ReadTempRaw_spin_wait 5 (some rom0) busWarm 2 (by decide) (by decide)⟩

set_option maxRecDepth 100000 in
/-- C9, counterexample: on the bus with no device `therm_Reset` returns 1 (absent),
yet `therm_ReadTempRaw` goes on to write the skip-ROM byte and returns the bytes
`(0xFF, 0xFF)`, which `therm_ReadTempC` and `therm_ReadTempF` return as
127.9375 degrees Celsius and 31.9 degrees Fahrenheit. -/
theorem absence_not_reported :
    (therm_Reset busEmpty).1 = 1
    ∧ (therm_ReadTempRaw 1 none busEmpty).map Prod.fst = some (0xFF, 0xFF)
    ∧ (therm_ReadTempRaw 1 none busEmpty).map (fun r => r.2.calls.take 9)
        = some (Call.Reset 1 :: writeBytes [0xCC])
    ∧ (therm_ReadTempC 1 none busEmpty).map Prod.fst = some (127, 9375)
    ∧ (therm_ReadTempF 1 none busEmpty).map Prod.fst = some (31, 9) := by
  refine ⟨by decide, by decide, by decide, by decide, by decide⟩

/-- C9, as the code behaves: when `therm_Reset` returns a non-zero value (no presence
pulse) the value is dropped; as on any bus whose conversion poll ends,
`therm_ReadTempRaw` addresses the bus, polls, resets again and returns the two bytes
it samples, and `therm_ReadTempC` / `therm_ReadTempF` return their decodes. -/
theorem absence_ignored (fuel : Nat) (id : Option (List Nat)) (s : Avr) (n : Nat)
    (habsent : (therm_Reset s).1 ≠ 0) (hdone : ConversionDone s n) (hfuel : n < fuel) :
    (therm_Reset s).1 = 1
    ∧ ∃ t0 t1 s', therm_ReadTempRaw fuel id s = some ((t0, t1), s')
      ∧ t0 = lineByte s (n + 3) ∧ t1 = lineByte s (n + 11)
      ∧ s'.calls = s.calls
          ++ Call.Reset 1 :: writeBytes (addressBytes id ++ [0x44])
          ++ pollSlots n
          ++ Call.Reset (lineBit s (n + 2)) :: writeBytes (addressBytes id ++ [0xBE])
          ++ readSlots s (n + 3) ++ readSlots s (n + 11)
      ∧ therm_ReadTempC fuel id s = some (therm_ReadTempC_decode t0 t1, s')
      ∧ therm_ReadTempF fuel id s = some (therm_ReadTempF_decode t0 t1, s') := by
  rw [therm_Reset_fst] at habsent ⊢
  have h1 : lineBit s 0 = 1 := by
    have := lineBit_lt s 0
    omega
  obtain ⟨t, ht, adv⟩ := therm_ReadTempRaw_run fuel id s n hdone hfuel
  refine ⟨h1, _, _, t, ht, rfl, rfl, ?_, ?_, ?_⟩
  · rw [adv.2.2, rawTrace, h1]
    simp [THERM_CONVERTTEMP, THERM_READSCRATCH]
  · simp only [therm_ReadTempC, ht]
  · simp only [therm_ReadTempF, ht]

set_option maxRecDepth 100000 in
/-- C9 as the code behaves, on the bus with no device. -/
theorem absence_ignored_witness :
    (therm_Reset busEmpty).1 ≠ 0 ∧ ConversionDone busEmpty 0 ∧ 0 < 1 ∧
    (therm_Reset busEmpty).1 = 1
    ∧ ∃ t0 t1 s', therm_ReadTempRaw 1 none busEmpty = some ((t0, t1), s')
      ∧ t0 = lineByte busEmpty (0 + 3) ∧ t1 = lineByte busEmpty (0 + 11)
      ∧ s'.calls = busEmpty.calls
          ++ Call.Reset 1 :: writeBytes (addressBytes none ++ [0x44])
          ++ pollSlots 0
          ++ Call.Reset (lineBit busEmpty (0 + 2)) :: writeBytes (addressBytes none ++ [0xBE])
          ++ readSlots busEmpty (0 + 3) ++ readSlots busEmpty (0 + 11)
      ∧ therm_ReadTempC 1 none busEmpty = some (therm_ReadTempC_decode t0 t1, s')
      ∧ therm_ReadTempF 1 none busEmpty = some (therm_ReadTempF_decode t0 t1, s') :=
  ⟨by decide, by decide, by decide,
    absence_ignored 1 none busEmpty 0 (by decide) (by decide) (by decide)⟩

set_option maxRecDepth 100000 in
/-- C4, failing input: with the register bytes `(0x6F, 0xFE)` (`raw = -401`,
-25.0625 degrees Celsius) `therm_ReadTempF` returns `whole = -13` and
`decimal = -1`; the decimal of `therm_ReadTempC` is within `0..9375` for all bytes. -/
theorem therm_ReadTempF_negative_decimal :
    (therm_ReadTempRaw 1 (some rom0) busCold).map Prod.fst = some (0x6F, 0xFE)
    ∧ rawValue 0x6F 0xFE = -401
    ∧ (therm_ReadTempF 1 (some rom0) busCold).map Prod.fst = some (-13, -1)
    ∧ ∀ t0 t1 : Nat, 0 ≤ (therm_ReadTempC_decode t0 t1).2
        ∧ (therm_ReadTempC_decode t0 t1).2 ≤ 9375 := by
  refine ⟨by decide, by decide, by decide, ?_⟩
  intro t0 t1
  have a0 : byte t0 &&& 15 ≤ 15 := Nat.and_le_right
  have l0 : Int.land (byte t0 : Int) 0x0F = ((byte t0 &&& 15 : Nat) : Int) := rfl
  simp only [therm_ReadTempC_decode, l0]
  rw [int16_of_fits (by unfold fits16; omega)]
  omega

end DS18B20
